import Mathlib

/-
Verification development for the Email-Sender repository (src/email_sender.py).

The Python source is shallowly embedded: pure helpers become Lean functions on
String / List Char, the stateful token cache becomes explicit state passing,
network I/O (requests.post / requests.get / msal token acquisition) becomes
environment functions supplied as parameters, and Python exceptions become
Except / explicit outcome constructors.  Character-level operations (strip,
lower, \w word characters, the two e-mail regexes) are modelled for ASCII
strings, which is the character range the regexes in the source accept.
-/

/-! ### Python string primitives used by the source -/

/-- ASCII whitespace recognised by Python's str.strip(). -/
def isPySpace (c : Char) : Bool :=
  c = ' ' || c = '\t' || c = '\n' || c = '\r' || c = '\x0b' || c = '\x0c'

/-- str.strip() on a character list: drop leading and trailing whitespace. -/
def stripL (l : List Char) : List Char :=
  ((l.dropWhile isPySpace).reverse.dropWhile isPySpace).reverse

/-- str.strip() on Strings. -/
def pyStrip (s : String) : String := String.mk (stripL s.data)

/-- Split a character list on newline characters, as Python line iteration /
str.split over a text whose only line separator is a bare newline.  A text of
n newline characters yields n+1 (possibly empty) segments. -/
def splitLinesL : List Char → List (List Char)
  | [] => [[]]
  | c :: rest =>
    if c = '\n' then [] :: splitLinesL rest
    else
      match splitLinesL rest with
      | [] => [[c]]
      | h :: t => (c :: h) :: t

/-- Python's substring membership test (`pat in hay`). -/
def containsSub : List Char → List Char → Bool
  | hay, pat =>
    if pat.isPrefixOf hay then true
    else
      match hay with
      | [] => false
      | _ :: t => containsSub t pat

/-- `pat in hay` on Strings. -/
def strContains (hay pat : String) : Bool := containsSub hay.data pat.data

/-- str.lower() restricted to ASCII case mapping. -/
def lowerStr (s : String) : String := String.mk (s.data.map Char.toLower)

/-- Digits (with Python's single-underscore digit separators) after the first
digit of an int literal; accumulates the value. -/
def pyDigitsCore : List Char → Nat → Option Nat
  | [], acc => some acc
  | '_' :: c :: rest, acc =>
    if c.isDigit then pyDigitsCore rest (acc * 10 + (c.toNat - 48)) else none
  | ['_'], _ => none
  | c :: rest, acc =>
    if c.isDigit then pyDigitsCore rest (acc * 10 + (c.toNat - 48)) else none

/-- A nonempty digit run per Python's int() grammar. -/
def pyDigits : List Char → Option Nat
  | [] => none
  | c :: rest => if c.isDigit then pyDigitsCore rest (c.toNat - 48) else none

/-- Python's int(str) conversion: surrounding whitespace stripped, optional
sign, decimal digits; `none` models the ValueError raise. -/
def pyParseInt (s : String) : Option Int :=
  match stripL s.data with
  | '+' :: rest => (pyDigits rest).map (fun n => (n : Int))
  | '-' :: rest => (pyDigits rest).map (fun n => -(n : Int))
  | rest => (pyDigits rest).map (fun n => (n : Int))

/-- Python truthiness of an Optional[int]: None and 0 are falsy. -/
def truthyOptInt : Option Int → Bool
  | none => false
  | some n => n != 0

/-- Python truthiness of an Optional[str]: None and the empty string are falsy. -/
def truthyOptStr : Option String → Bool
  | none => false
  | some s => s != ""

/-! ### TokenProvider: GraphEmailSender.get_access_token (src lines 120-152)

The cached credential (self.access_token / self.token_expires_at) is the
explicit `TokenState`; `time.time()` is the explicit `now` parameter (both
reads of the clock inside one call are modelled by the same instant); the
msal acquire_token_for_client response is the `AcquireResult` parameter. -/

structure TokenState where
  access_token : Option String
  token_expires_at : Option Int
deriving DecidableEq, Repr

/-- The dictionary returned by app.acquire_token_for_client: key
"access_token" when present, optional "expires_in", optional error strings. -/
structure AcquireResult where
  access_token : Option String
  expires_in : Option Int
  error_description : Option String
  error : Option String
deriving DecidableEq, Repr

/-- result.get("error_description", result.get("error", "Unknown error")). -/
def acquireErrMsg (acq : AcquireResult) : String :=
  acq.error_description.getD (acq.error.getD "Unknown error")

/-- get_access_token.  Returns the Except result (token and new cache state,
or the raised exception message) together with a flag recording whether a
client-credential exchange (acquire_token_for_client) was performed. -/
def get_access_token (st : TokenState) (now : Int) (acq : AcquireResult)
    (force_refresh : Bool) : Except String (String × TokenState) × Bool :=
  if !force_refresh && truthyOptStr st.access_token && truthyOptInt st.token_expires_at
      && decide (now < st.token_expires_at.getD 0 - 300) then
    (.ok (st.access_token.getD "", st), false)
  else
    match acq.access_token with
    | some tok =>
      (.ok (tok, { access_token := some tok,
                   token_expires_at := some (now + acq.expires_in.getD 3600) }), true)
    | none =>
      (.error ("Failed to acquire token: " ++ acquireErrMsg acq), true)

/-- C3: with force_refresh false, a truthy cached token whose expiry is more
than 300 seconds away is returned unchanged with no token exchange; in every
other case an exchange happens, and when it yields an access token, the token
is cached with expiry now + expires_in (default 3600) and returned. -/
theorem c3_token_cache_and_refresh (st : TokenState) (now : Int) (acq : AcquireResult)
    (tok : String) (e : Int) :
    (st.access_token = some tok → tok ≠ "" → st.token_expires_at = some e → e ≠ 0 →
      now < e - 300 →
      get_access_token st now acq false = (.ok (tok, st), false)) ∧
    (¬ (truthyOptStr st.access_token = true ∧ truthyOptInt st.token_expires_at = true ∧
        now < st.token_expires_at.getD 0 - 300) →
      (get_access_token st now acq false).2 = true ∧
      ∀ t, acq.access_token = some t →
        get_access_token st now acq false =
          (.ok (t, { access_token := some t,
                     token_expires_at := some (now + acq.expires_in.getD 3600) }), true)) := by
  constructor
  · intro h1 h2 h3 h4 h5
    simp [get_access_token, truthyOptStr, truthyOptInt, h1, h2, h3, h4, h5]
  · intro hno
    have hcond : (!false && truthyOptStr st.access_token && truthyOptInt st.token_expires_at
        && decide (now < st.token_expires_at.getD 0 - 300)) = false := by
      by_contra hc
      apply hno
      simp only [Bool.not_eq_false] at hc
      simp only [Bool.and_eq_true, decide_eq_true_eq] at hc
      exact ⟨hc.1.1.2, hc.1.2, hc.2⟩
    constructor
    · unfold get_access_token
      rw [hcond]
      simp only [Bool.false_eq_true, if_false]
      cases acq.access_token <;> simp
    · intro t ht
      unfold get_access_token
      rw [hcond]
      simp only [Bool.false_eq_true, if_false, ht]

/-- Witness for C3 at concrete inputs: a valid cache hit, and a cache miss
that exchanges and caches now + expires_in. -/
theorem c3_token_cache_and_refresh_witness :
    get_access_token ⟨some "tokA", some 10000⟩ 5000
        ⟨some "tokB", some 100, none, none⟩ false = (.ok ("tokA", ⟨some "tokA", some 10000⟩), false) ∧
    get_access_token ⟨none, none⟩ 5000 ⟨some "tokB", some 100, none, none⟩ false =
      (.ok ("tokB", ⟨some "tokB", some 5100⟩), true) := by
  constructor
  · exact (c3_token_cache_and_refresh ⟨some "tokA", some 10000⟩ 5000
      ⟨some "tokB", some 100, none, none⟩ "tokA" 10000).1 rfl (by decide) rfl (by decide) (by decide)
  · have h := (c3_token_cache_and_refresh ⟨none, none⟩ 5000
      ⟨some "tokB", some 100, none, none⟩ "x" 0).2 (by simp [truthyOptStr])
    exact h.2 "tokB" rfl

/-! ### DeliveryClient: GraphEmailSender.send_email retry loop (src lines 246-432)

The `for attempt in range(max_retries)` loop becomes a well-founded recursion
on `max_retries - attempt`.  The i-th HTTP POST (requests.post) outcome is
`env i`: either an HttpResponse or a raised requests RequestException.
`response.json()` is modelled as total via the `error_data_str` field, which
stands for Python's `str(response.json() if response.text else {})`.  The
`time.sleep` calls are recorded in order in the `sleeps` list (the source
would raise on a negative Retry-After value reaching time.sleep; sleeping is
modelled as pure recording, which is sound for the claims, none of which
involve negative parsed headers). -/

structure HttpResponse where
  status_code : Nat
  text : String
  retry_after : Option String
  error_data_str : String
deriving DecidableEq, Repr

inductive AttemptOutcome where
  | resp (r : HttpResponse)
  | exc (msg : String)
deriving DecidableEq, Repr

/-- The result dict of send_email, together with the effects observed during
the call: the sleep durations in order, the number of POST attempts made, and
whether a forced token refresh happened. -/
structure SendOutcome where
  success : Bool
  recipient : String
  status_code : Option Nat
  error : Option String
  message : Option String
  sleeps : List Int
  attempts : Nat
  refreshed : Bool
deriving DecidableEq, Repr

/-- "InvalidAuthenticationToken" in str(error_data) or "expired" in
str(error_data).lower()  (src line 360). -/
def token_expired_signal (eds : String) : Bool :=
  strContains eds "InvalidAuthenticationToken" || strContains (lowerStr eds) "expired"

/-- wait_seconds from the Retry-After header (src lines 376-383): absent
header or failed int() parse both give None. -/
def throttleWaitSeconds : Option String → Option Int
  | some h => pyParseInt h
  | none => none

/-- The retry loop of send_email (src lines 339-432).  `attempt` is the loop
counter; the loop runs while attempt < max_retries. -/
def send_email_go (env : Nat → AttemptOutcome) (acqR : AcquireResult) (st : TokenState)
    (now : Int) (recipient_email : String) (max_retries : Nat) (attempt : Nat)
    (sleeps : List Int) : Except String (SendOutcome × TokenState) :=
  if h : attempt < max_retries then
    match env attempt with
    | .resp r =>
      if r.status_code = 202 then
        .ok ({ success := true, recipient := recipient_email,
               status_code := some r.status_code, error := none,
               message := some "Email sent successfully", sleeps := sleeps,
               attempts := attempt + 1, refreshed := false }, st)
      else if r.status_code = 401 then
        if token_expired_signal r.error_data_str then
          match (get_access_token st now acqR true).1 with
          | .error e => .error e
          | .ok (_, st2) =>
            .ok ({ success := false, recipient := recipient_email,
                   status_code := some r.status_code, error := some "Token expired",
                   message := none, sleeps := sleeps, attempts := attempt + 1,
                   refreshed := true }, st2)
        else
          .ok ({ success := false, recipient := recipient_email,
                 status_code := some r.status_code, error := some r.text,
                 message := none, sleeps := sleeps, attempts := attempt + 1,
                 refreshed := false }, st)
      else if r.status_code = 429 ∨ strContains r.text "ApplicationThrottled" = true then
        let wait_seconds := throttleWaitSeconds r.retry_after
        if attempt < max_retries - 1 then
          let wait_time : Int :=
            if truthyOptInt wait_seconds then wait_seconds.getD 0
            else min (60 * (2 : Int) ^ attempt) 600
          send_email_go env acqR st now recipient_email max_retries (attempt + 1)
            (sleeps ++ [wait_time])
        else
          .ok ({ success := false, recipient := recipient_email,
                 status_code := some r.status_code, error := some r.text,
                 message := none, sleeps := sleeps, attempts := attempt + 1,
                 refreshed := false }, st)
      else
        .ok ({ success := false, recipient := recipient_email,
               status_code := some r.status_code, error := some r.text,
               message := none, sleeps := sleeps, attempts := attempt + 1,
               refreshed := false }, st)
    | .exc msg =>
      if attempt < max_retries - 1 then
        send_email_go env acqR st now recipient_email max_retries (attempt + 1)
          (sleeps ++ [min ((2 : Int) ^ attempt) 30])
      else
        .ok ({ success := false, recipient := recipient_email, status_code := none,
               error := some ("Request exception: " ++ msg), message := none,
               sleeps := sleeps, attempts := attempt + 1, refreshed := false }, st)
  else
    .ok ({ success := false, recipient := recipient_email, status_code := none,
           error := some ("Failed after " ++ toString max_retries ++ " attempts"),
           message := none, sleeps := sleeps, attempts := attempt,
           refreshed := false }, st)
termination_by max_retries - attempt
decreasing_by
  · omega
  · omega

/-- send_email (src lines 246-432): acquire a token (auto-refresh path,
force_refresh false), then run the retry loop.  `acq0` is the msal response
used by the initial token acquisition, `acqR` the one used by a forced
refresh inside the loop (the loop refreshes at most once per call, since the
401 token-expired path returns immediately). -/
def send_email (st : TokenState) (now : Int) (acq0 acqR : AcquireResult)
    (env : Nat → AttemptOutcome) (recipient_email : String) (max_retries : Nat) :
    Except String (SendOutcome × TokenState) :=
  match (get_access_token st now acq0 false).1 with
  | .error e => .error e
  | .ok (_, st1) => send_email_go env acqR st1 now recipient_email max_retries 0 []

/-- The retry loop consults env only at indices in [attempt, max_retries). -/
theorem send_email_go_congr (acqR : AcquireResult) (st : TokenState) (now : Int)
    (re : String) (max_retries : Nat) :
    ∀ (fuel : Nat) (env env2 : Nat → AttemptOutcome) (attempt : Nat) (sleeps : List Int),
      max_retries - attempt ≤ fuel →
      (∀ i, attempt ≤ i → i < max_retries → env i = env2 i) →
      send_email_go env acqR st now re max_retries attempt sleeps =
        send_email_go env2 acqR st now re max_retries attempt sleeps := by
  intro fuel
  induction fuel with
  | zero =>
    intro env env2 attempt sleeps hle hagree
    have hge : ¬ attempt < max_retries := by omega
    conv_lhs => rw [send_email_go]
    conv_rhs => rw [send_email_go]
    simp only [hge, dite_false]
  | succ n ih =>
    intro env env2 attempt sleeps hle hagree
    by_cases hlt : attempt < max_retries
    · conv_lhs => rw [send_email_go]
      conv_rhs => rw [send_email_go]
      simp only [hlt, dite_true]
      rw [← hagree attempt le_rfl hlt]
      cases henv : env attempt with
      | resp r =>
        by_cases h202 : r.status_code = 202
        · simp only [h202, if_true]
        · simp only [h202, if_false]
          by_cases h401 : r.status_code = 401
          · simp only [h401, if_true]
          · simp only [h401, if_false]
            by_cases hthr : r.status_code = 429 ∨ strContains r.text "ApplicationThrottled" = true
            · simp only [hthr, if_true]
              by_cases hrem : attempt < max_retries - 1
              · simp only [hrem, if_true]
                exact ih env env2 (attempt + 1) _ (by omega)
                  (fun i hi1 hi2 => hagree i (by omega) hi2)
              · simp only [hrem, if_false]
            · simp only [hthr, if_false]
      | exc msg =>
        by_cases hrem : attempt < max_retries - 1
        · simp only [hrem, if_true]
          exact ih env env2 (attempt + 1) _ (by omega)
            (fun i hi1 hi2 => hagree i (by omega) hi2)
        · simp only [hrem, if_false]
    · conv_lhs => rw [send_email_go]
      conv_rhs => rw [send_email_go]
      simp only [hlt, dite_false]

/-- One throttled iteration with attempts remaining and a falsy wait_seconds
(header absent, non-numeric, or zero) sleeps the exponential backoff
min(60 * 2^attempt, 600) and retries. -/
theorem send_email_go_throttle_retry_backoff (env : Nat → AttemptOutcome)
    (acqR : AcquireResult) (st : TokenState) (now : Int) (re : String)
    (max_retries attempt : Nat) (r : HttpResponse) (sleeps : List Int)
    (henv : env attempt = .resp r) (h202 : r.status_code ≠ 202)
    (h401 : r.status_code ≠ 401)
    (hthr : r.status_code = 429 ∨ strContains r.text "ApplicationThrottled" = true)
    (hfalsy : truthyOptInt (throttleWaitSeconds r.retry_after) = false)
    (hrem : attempt < max_retries - 1) :
    send_email_go env acqR st now re max_retries attempt sleeps =
      send_email_go env acqR st now re max_retries (attempt + 1)
        (sleeps ++ [min (60 * (2 : Int) ^ attempt) 600]) := by
  have hlt : attempt < max_retries := by omega
  conv_lhs => rw [send_email_go]
  simp only [hlt, dite_true, henv, h202, if_false, h401, hthr, if_true, hrem,
    hfalsy, Bool.false_eq_true]

/-- A throttled iteration on the final attempt returns a failure carrying the
response body as error, with no further sleep or retry. -/
theorem send_email_go_throttle_exhaust (env : Nat → AttemptOutcome)
    (acqR : AcquireResult) (st : TokenState) (now : Int) (re : String)
    (max_retries attempt : Nat) (r : HttpResponse) (sleeps : List Int)
    (henv : env attempt = .resp r) (h202 : r.status_code ≠ 202)
    (h401 : r.status_code ≠ 401)
    (hthr : r.status_code = 429 ∨ strContains r.text "ApplicationThrottled" = true)
    (hlast : ¬ attempt < max_retries - 1) (hlt : attempt < max_retries) :
    send_email_go env acqR st now re max_retries attempt sleeps =
      .ok ({ success := false, recipient := re, status_code := some r.status_code,
             error := some r.text, message := none, sleeps := sleeps,
             attempts := attempt + 1, refreshed := false }, st) := by
  conv_lhs => rw [send_email_go]
  simp only [hlt, dite_true, henv, h202, if_false, h401, hthr, if_true, hlast]

/-- C2: with max_retries = 3 and every attempt answered 429 with no
Retry-After header, send_email performs exactly three attempts, sleeping 60
then 120 seconds between them, returns a failure whose error is the third
response body, and never consults a fourth attempt. -/
theorem c2_retry_budget_throttle (st st1 : TokenState) (now : Int)
    (acq0 acqR : AcquireResult) (env : Nat → AttemptOutcome) (re tok : String)
    (r0 r1 r2 : HttpResponse)
    (htok : (get_access_token st now acq0 false).1 = .ok (tok, st1))
    (h0 : env 0 = .resp r0) (h1 : env 1 = .resp r1) (h2 : env 2 = .resp r2)
    (hs0 : r0.status_code = 429) (hs1 : r1.status_code = 429) (hs2 : r2.status_code = 429)
    (hr0 : r0.retry_after = none) (hr1 : r1.retry_after = none) (hr2 : r2.retry_after = none) :
    send_email st now acq0 acqR env re 3 =
      .ok ({ success := false, recipient := re, status_code := some 429,
             error := some r2.text, message := none, sleeps := [60, 120],
             attempts := 3, refreshed := false }, st1) ∧
    ∀ env2 : Nat → AttemptOutcome, (∀ i, i < 3 → env2 i = env i) →
      send_email st now acq0 acqR env2 re 3 = send_email st now acq0 acqR env re 3 := by
  constructor
  · simp only [send_email, htok]
    rw [send_email_go_throttle_retry_backoff env acqR st1 now re 3 0 r0 [] h0
          (by simp [hs0]) (by simp [hs0]) (Or.inl hs0)
          (by simp [hr0, throttleWaitSeconds, truthyOptInt]) (by norm_num),
        send_email_go_throttle_retry_backoff env acqR st1 now re 3 1 r1 _ h1
          (by simp [hs1]) (by simp [hs1]) (Or.inl hs1)
          (by simp [hr1, throttleWaitSeconds, truthyOptInt]) (by norm_num),
        send_email_go_throttle_exhaust env acqR st1 now re 3 2 r2 _ h2
          (by simp [hs2]) (by simp [hs2]) (Or.inl hs2) (by norm_num) (by norm_num), hs2]
    norm_num
  · intro env2 hag
    simp only [send_email, htok]
    exact send_email_go_congr acqR st1 now re 3 3 env2 env 0 [] (by omega)
      (fun i hi1 hi2 => hag i hi2)

/-- Witness for C2: all three attempts answer 429 with no header. -/
theorem c2_retry_budget_throttle_witness :
    send_email ⟨some "t", some 10000⟩ 0 ⟨none, none, none, none⟩ ⟨none, none, none, none⟩
        (fun _ => .resp ⟨429, "throttled-body", none, "eds"⟩) "rcpt" 3 =
      .ok ({ success := false, recipient := "rcpt", status_code := some 429,
             error := some "throttled-body", message := none, sleeps := [60, 120],
             attempts := 3, refreshed := false }, ⟨some "t", some 10000⟩) := by
  exact (c2_retry_budget_throttle ⟨some "t", some 10000⟩ ⟨some "t", some 10000⟩ 0
    ⟨none, none, none, none⟩ ⟨none, none, none, none⟩
    (fun _ => .resp ⟨429, "throttled-body", none, "eds"⟩) "rcpt" "t"
    ⟨429, "throttled-body", none, "eds"⟩ ⟨429, "throttled-body", none, "eds"⟩
    ⟨429, "throttled-body", none, "eds"⟩ rfl rfl rfl rfl rfl rfl rfl
    rfl rfl rfl).1

/-- C5: a 401 response whose parsed body carries the token-expired signal
makes send_email force a token refresh — the cached credential becomes the
newly exchanged token with expiry now + expires_in (default 3600) — and
return a failure immediately: no sleep is added, no remaining attempt is
consumed, and the refreshed token is not used again within this call. -/
theorem c5_401_token_expired (env : Nat → AttemptOutcome) (acqR : AcquireResult)
    (st : TokenState) (now : Int) (re t : String) (max_retries attempt : Nat)
    (sleeps : List Int) (r : HttpResponse)
    (henv : env attempt = .resp r) (hlt : attempt < max_retries)
    (hs : r.status_code = 401)
    (hsig : token_expired_signal r.error_data_str = true)
    (hacq : acqR.access_token = some t) :
    send_email_go env acqR st now re max_retries attempt sleeps =
      .ok ({ success := false, recipient := re, status_code := some 401,
             error := some "Token expired", message := none, sleeps := sleeps,
             attempts := attempt + 1, refreshed := true },
           { access_token := some t,
             token_expires_at := some (now + acqR.expires_in.getD 3600) }) := by
  conv_lhs => rw [send_email_go]
  simp only [hlt, dite_true, henv, hs]
  norm_num [hsig, get_access_token, hacq]

/-- Witness for C5: a 401 token-expired response at the first attempt with a
successful forced refresh. -/
theorem c5_401_token_expired_witness :
    send_email_go (fun _ => .resp ⟨401, "b", none, "InvalidAuthenticationToken"⟩)
        ⟨some "newtok", some 1800, none, none⟩ ⟨some "old", some 9999⟩ 100 "rcpt" 5 0 [] =
      .ok ({ success := false, recipient := "rcpt", status_code := some 401,
             error := some "Token expired", message := none, sleeps := [],
             attempts := 1, refreshed := true },
           { access_token := some "newtok", token_expires_at := some 1900 }) := by
  have h := c5_401_token_expired (fun _ => .resp ⟨401, "b", none, "InvalidAuthenticationToken"⟩)
    ⟨some "newtok", some 1800, none, none⟩ ⟨some "old", some 9999⟩ 100 "rcpt" "newtok"
    5 0 [] ⟨401, "b", none, "InvalidAuthenticationToken"⟩ rfl (by norm_num) rfl
    (by decide) rfl
  simpa using h

/-- C9: a throttled response whose Retry-After header fails int() parsing is
treated exactly as if the header were absent: with attempts remaining the
loop sleeps min(60 * 2^attempt, 600) and retries, and the whole call behaves
identically to the call receiving the same response without the header. -/
theorem c9_nonnumeric_retry_after (env : Nat → AttemptOutcome) (acqR : AcquireResult)
    (st : TokenState) (now : Int) (re : String) (max_retries attempt : Nat)
    (sleeps : List Int) (r : HttpResponse) (hdr : String)
    (henv : env attempt = .resp r) (h202 : r.status_code ≠ 202)
    (h401 : r.status_code ≠ 401)
    (hthr : r.status_code = 429 ∨ strContains r.text "ApplicationThrottled" = true)
    (hra : r.retry_after = some hdr) (hparse : pyParseInt hdr = none)
    (hrem : attempt < max_retries - 1) :
    send_email_go env acqR st now re max_retries attempt sleeps =
      send_email_go env acqR st now re max_retries (attempt + 1)
        (sleeps ++ [min (60 * (2 : Int) ^ attempt) 600]) ∧
    send_email_go env acqR st now re max_retries attempt sleeps =
      send_email_go (fun i => if i = attempt then .resp { r with retry_after := none } else env i)
        acqR st now re max_retries attempt sleeps := by
  have hfalsy : truthyOptInt (throttleWaitSeconds r.retry_after) = false := by
    rw [hra]
    simp [throttleWaitSeconds, hparse, truthyOptInt]
  have hstep := send_email_go_throttle_retry_backoff env acqR st now re max_retries attempt r
    sleeps henv h202 h401 hthr hfalsy hrem
  refine ⟨hstep, ?_⟩
  have hstep2 := send_email_go_throttle_retry_backoff
    (fun i => if i = attempt then .resp { r with retry_after := none } else env i)
    acqR st now re max_retries attempt { r with retry_after := none } sleeps (by simp)
    h202 h401 hthr (by simp [throttleWaitSeconds, truthyOptInt]) hrem
  rw [hstep, hstep2]
  exact send_email_go_congr acqR st now re max_retries max_retries env _ (attempt + 1) _
    (by omega) (fun i hi1 hi2 => by simp [show i ≠ attempt by omega])

/-- Witness for C9: Retry-After "abc" at attempt 0 of max_retries 3 sleeps 60. -/
theorem c9_nonnumeric_retry_after_witness :
    send_email_go (fun _ => .resp ⟨429, "b", some "abc", "e"⟩) ⟨none, none, none, none⟩
        ⟨some "t", some 9999⟩ 0 "rcpt" 3 0 [] =
      send_email_go (fun _ => .resp ⟨429, "b", some "abc", "e"⟩) ⟨none, none, none, none⟩
        ⟨some "t", some 9999⟩ 0 "rcpt" 3 1 [60] := by
  have h := (c9_nonnumeric_retry_after (fun _ => .resp ⟨429, "b", some "abc", "e"⟩)
    ⟨none, none, none, none⟩ ⟨some "t", some 9999⟩ 0 "rcpt" 3 0 []
    ⟨429, "b", some "abc", "e"⟩ "abc" rfl (by decide) (by decide) (Or.inl rfl) rfl
    (by decide) (by norm_num)).1
  simpa using h

/-- C10: a throttled response whose Retry-After header parses to 0 is treated
like an absent header — Python's truthiness test rejects 0 — so with attempts
remaining the loop sleeps min(60 * 2^attempt, 600) rather than 0 seconds, and
the call behaves identically to one receiving no header. -/
theorem c10_zero_retry_after (env : Nat → AttemptOutcome) (acqR : AcquireResult)
    (st : TokenState) (now : Int) (re : String) (max_retries attempt : Nat)
    (sleeps : List Int) (r : HttpResponse) (hdr : String)
    (henv : env attempt = .resp r) (h202 : r.status_code ≠ 202)
    (h401 : r.status_code ≠ 401)
    (hthr : r.status_code = 429 ∨ strContains r.text "ApplicationThrottled" = true)
    (hra : r.retry_after = some hdr) (hparse : pyParseInt hdr = some 0)
    (hrem : attempt < max_retries - 1) :
    send_email_go env acqR st now re max_retries attempt sleeps =
      send_email_go env acqR st now re max_retries (attempt + 1)
        (sleeps ++ [min (60 * (2 : Int) ^ attempt) 600]) ∧
    send_email_go env acqR st now re max_retries attempt sleeps =
      send_email_go (fun i => if i = attempt then .resp { r with retry_after := none } else env i)
        acqR st now re max_retries attempt sleeps := by
  have hfalsy : truthyOptInt (throttleWaitSeconds r.retry_after) = false := by
    rw [hra]
    simp [throttleWaitSeconds, hparse, truthyOptInt]
  have hstep := send_email_go_throttle_retry_backoff env acqR st now re max_retries attempt r
    sleeps henv h202 h401 hthr hfalsy hrem
  refine ⟨hstep, ?_⟩
  have hstep2 := send_email_go_throttle_retry_backoff
    (fun i => if i = attempt then .resp { r with retry_after := none } else env i)
    acqR st now re max_retries attempt { r with retry_after := none } sleeps (by simp)
    h202 h401 hthr (by simp [throttleWaitSeconds, truthyOptInt]) hrem
  rw [hstep, hstep2]
  exact send_email_go_congr acqR st now re max_retries max_retries env _ (attempt + 1) _
    (by omega) (fun i hi1 hi2 => by simp [show i ≠ attempt by omega])

/-- Witness for C10: Retry-After "0" at attempt 1 of max_retries 3 sleeps 120. -/
theorem c10_zero_retry_after_witness :
    send_email_go (fun _ => .resp ⟨429, "b", some "0", "e"⟩) ⟨none, none, none, none⟩
        ⟨some "t", some 9999⟩ 0 "rcpt" 3 1 [60] =
      send_email_go (fun _ => .resp ⟨429, "b", some "0", "e"⟩) ⟨none, none, none, none⟩
        ⟨some "t", some 9999⟩ 0 "rcpt" 3 2 [60, 120] := by
  have h := (c10_zero_retry_after (fun _ => .resp ⟨429, "b", some "0", "e"⟩)
    ⟨none, none, none, none⟩ ⟨some "t", some 9999⟩ 0 "rcpt" 3 1 [60]
    ⟨429, "b", some "0", "e"⟩ "0" rfl (by decide) (by decide) (Or.inl rfl) rfl
    (by decide) (by norm_num)).1
  simpa using h

/-! ### Validator: is_valid_email (src lines 558-565)

re.match(pattern, email) with pattern
  ^[a-zA-Z0-9._%+-]+@[a-zA-Z0-9.-]+\.[a-zA-Z]{2,}$
is compiled to a deterministic check: since '@' belongs to neither character
class, the local part must be the maximal leading run of local-part
characters followed by '@'; since the TLD letters are domain characters and
'.' is not a letter, the dot of `\.` must be the last dot of the maximal
domain-character run, with only letters (at least two) after it, and the run
must reach the end anchor.  Python's `$` matches at the very end of the
string or just before a terminating newline, so the residue after the domain
run must be empty or exactly a single newline. -/

/-- The regex class [a-zA-Z0-9._%+-] (local part). -/
def charL (c : Char) : Bool :=
  c.isAlpha || c.isDigit || c = '.' || c = '_' || c = '%' || c = '+' || c = '-'

/-- The regex class [a-zA-Z0-9.-] (domain). -/
def charD (c : Char) : Bool :=
  c.isAlpha || c.isDigit || c = '.' || c = '-'

/-- is_valid_email on a character list. -/
def isValidEmailL (s : List Char) : Bool :=
  let lp := s.takeWhile charL
  match lp, s.dropWhile charL with
  | [], _ => false
  | _, [] => false
  | _, a :: rest2 =>
    if a ≠ '@' then false
    else
      let dr := rest2.takeWhile charD
      let rest3 := rest2.dropWhile charD
      if ¬ (rest3 = [] ∨ rest3 = ['\n']) then false
      else
        let t := dr.reverse.takeWhile Char.isAlpha
        if t.length < 2 then false
        else
          let pre := dr.take (dr.length - t.length)
          decide (pre.getLast? = some '.') && decide (2 ≤ pre.length)

/-- is_valid_email (src lines 558-565). -/
def is_valid_email (email : String) : Bool := isValidEmailL email.data

/-- takeWhile/dropWhile across a boundary: a prefix all satisfying p followed
by a failing character splits exactly there. -/
theorem takeWhile_append_cons (p : Char → Bool) (l1 : List Char) (c : Char) (l2 : List Char)
    (h1 : ∀ x ∈ l1, p x = true) (h2 : p c = false) :
    (l1 ++ c :: l2).takeWhile p = l1 ∧ (l1 ++ c :: l2).dropWhile p = c :: l2 := by
  induction l1 with
  | nil => simp [List.takeWhile_cons, List.dropWhile_cons, h2]
  | cons a l1 ih =>
    have ha : p a = true := h1 a (by simp)
    have ih2 := ih (fun x hx => h1 x (by simp [hx]))
    simp [List.takeWhile_cons, List.dropWhile_cons, ha, ih2.1, ih2.2]

/-- takeWhile/dropWhile on a list all of whose members satisfy p. -/
theorem takeWhile_all (p : Char → Bool) (l : List Char) (h : ∀ x ∈ l, p x = true) :
    l.takeWhile p = l ∧ l.dropWhile p = [] := by
  induction l with
  | nil => simp
  | cons a l ih =>
    have ha : p a = true := h a (by simp)
    have ih2 := ih (fun x hx => h x (by simp [hx]))
    simp [List.takeWhile_cons, List.dropWhile_cons, ha, ih2.1, ih2.2]

/-- Modelled from the spec: "matches local@domain.tld with local part in
[A-Za-z0-9._%+-]+, domain in [A-Za-z0-9.-]+, TLD of 2+ letters. Anchored
(full-string match)" — the whole character list is exactly
local ++ @ ++ domain ++ . ++ tld. -/
def EmailShapeL (s : List Char) : Prop :=
  ∃ lp d t : List Char,
    lp ≠ [] ∧ (∀ c ∈ lp, charL c = true) ∧ d ≠ [] ∧ (∀ c ∈ d, charD c = true) ∧
    2 ≤ t.length ∧ (∀ c ∈ t, c.isAlpha = true) ∧ s = lp ++ '@' :: (d ++ '.' :: t)

/-- Backward direction: a shaped string, optionally followed by one newline,
is accepted by is_valid_email. -/
theorem isValidEmailL_of_shape (u tail : List Char) (hu : EmailShapeL u)
    (htail : tail = [] ∨ tail = ['\n']) : isValidEmailL (u ++ tail) = true := by
  obtain ⟨lp, d, t, hlp, hlpc, hd, hdc, ht2, htc, hueq⟩ := hu
  subst hueq
  have hassoc : (lp ++ '@' :: (d ++ '.' :: t)) ++ tail
      = lp ++ '@' :: ((d ++ '.' :: t) ++ tail) := by simp
  rw [hassoc]
  have hdomc : ∀ x ∈ d ++ '.' :: t, charD x = true := by
    intro x hx
    rcases List.mem_append.1 hx with hx | hx
    · exact hdc x hx
    · rcases List.mem_cons.1 hx with rfl | hx
      · decide
      · have := htc x hx
        simp [charD, this]
  have h1 := takeWhile_append_cons charL lp '@' ((d ++ '.' :: t) ++ tail) hlpc (by decide)
  have hdr : ((d ++ '.' :: t) ++ tail).takeWhile charD = d ++ '.' :: t ∧
      ((d ++ '.' :: t) ++ tail).dropWhile charD = tail := by
    rcases htail with rfl | rfl
    · have := takeWhile_all charD (d ++ '.' :: t) hdomc
      simpa using this
    · exact takeWhile_append_cons charD (d ++ '.' :: t) '\n' [] hdomc (by decide)
  have hrevdr : (d ++ '.' :: t).reverse = t.reverse ++ '.' :: d.reverse := by
    rw [List.reverse_append, List.reverse_cons]
    simp
  have htrev : (t.reverse ++ '.' :: d.reverse).takeWhile Char.isAlpha = t.reverse :=
    (takeWhile_append_cons Char.isAlpha t.reverse '.' d.reverse
      (fun x hx => htc x (List.mem_reverse.1 hx)) (by decide)).1
  have hpre : (d ++ '.' :: t).take ((d ++ '.' :: t).length - t.reverse.length)
      = d ++ ['.'] := by
    have hlen : (d ++ '.' :: t).length - t.reverse.length = d.length + 1 := by
      simp [List.length_append]
      omega
    rw [hlen, List.take_append_eq_append_take]
    have hd1 : d.take (d.length + 1) = d := List.take_of_length_le (by omega)
    have hd2 : d.length + 1 - d.length = 1 := by omega
    rw [hd1, hd2]
    simp [List.take_succ_cons]
  rcases lp with _ | ⟨x, lp2⟩
  · exact absurd rfl hlp
  · unfold isValidEmailL
    rw [h1.1, h1.2]
    dsimp only
    rw [if_neg (by simp)]
    rw [hdr.1, hdr.2, hrevdr, htrev, hpre]
    rw [if_neg (not_not_intro htail)]
    rw [if_neg (by simp; omega)]
    have hlast : (d ++ ['.']).getLast? = some '.' := List.getLast?_concat d
    have hdl : 0 < d.length := List.length_pos.2 hd
    simp [hlast]
    omega

/-- Forward direction: a string accepted by is_valid_email is exactly
local@domain.tld, possibly followed by one trailing newline (the Python `$`
anchor). -/
theorem shape_of_isValidEmailL (s : List Char) (h : isValidEmailL s = true) :
    EmailShapeL s ∨ ∃ u, s = u ++ ['\n'] ∧ EmailShapeL u := by
  have hsplit := List.takeWhile_append_dropWhile charL s
  unfold isValidEmailL at h
  rcases hlpE : s.takeWhile charL with _ | ⟨x, lp2⟩ <;> rw [hlpE] at h
  · simp at h
  rcases hdwE : s.dropWhile charL with _ | ⟨a, rest2⟩ <;> rw [hdwE] at h
  · simp at h
  dsimp only at h
  by_cases ha : a = '@'
  case neg =>
    rw [if_pos ha] at h
    simp at h
  subst ha
  rw [if_neg (by simp)] at h
  set dr := rest2.takeWhile charD with hdrdef
  set rest3 := rest2.dropWhile charD with hrest3def
  by_cases h3 : rest3 = [] ∨ rest3 = ['\n']
  case neg =>
    rw [if_pos h3] at h
    simp at h
  rw [if_neg (not_not_intro h3)] at h
  set t := dr.reverse.takeWhile Char.isAlpha with htdef
  by_cases h4 : t.length < 2
  case pos =>
    rw [if_pos h4] at h
    simp at h
  rw [if_neg h4] at h
  simp only [Bool.and_eq_true, decide_eq_true_eq] at h
  obtain ⟨hpredot, hprelen⟩ := h
  set u := dr.reverse.dropWhile Char.isAlpha with hudef
  have hdrrev : t ++ u = dr.reverse := List.takeWhile_append_dropWhile Char.isAlpha dr.reverse
  have hdreq : dr = u.reverse ++ t.reverse := by
    have := congrArg List.reverse hdrrev
    simpa [List.reverse_append] using this.symm
  have hlen : dr.length - t.length = u.reverse.length := by
    have h1 : dr.length = u.reverse.length + t.reverse.length := by
      rw [hdreq, List.length_append]
    have h2 : t.reverse.length = t.length := List.length_reverse t
    omega
  have hpre : dr.take (dr.length - t.length) = u.reverse := by
    rw [hlen, hdreq, List.take_left]
  rw [hpre] at hpredot hprelen
  have hpredecomp : u.reverse.dropLast ++ ['.'] = u.reverse :=
    List.dropLast_append_getLast? '.' (Option.mem_def.2 hpredot)
  set d0 := u.reverse.dropLast with hd0def
  have hd0 : d0 ≠ [] := by
    intro hnil
    have h5 : u.reverse.length - 1 = 0 := by
      rw [← List.length_dropLast, ← hd0def, hnil]
      rfl
    have h6 : 2 ≤ u.reverse.length := hprelen
    omega
  have hdreq2 : dr = d0 ++ '.' :: t.reverse := by
    rw [hdreq, ← hpredecomp]
    simp
  have hdrD : ∀ c ∈ dr, charD c = true := fun c hc => List.mem_takeWhile_imp hc
  have hd0D : ∀ c ∈ d0, charD c = true := by
    intro c hc
    exact hdrD c (by rw [hdreq2]; simp [hc])
  have htalpha : ∀ c ∈ t.reverse, c.isAlpha = true := by
    intro c hc
    exact List.mem_takeWhile_imp (List.mem_reverse.1 hc)
  have htlen : 2 ≤ t.reverse.length := by
    simp
    omega
  have hlpC : ∀ c ∈ x :: lp2, charL c = true := by
    intro c hc
    rw [← hlpE] at hc
    exact List.mem_takeWhile_imp hc
  have hrest2 : rest2 = dr ++ rest3 := (List.takeWhile_append_dropWhile charD rest2).symm
  rw [hlpE, hdwE] at hsplit
  have hs2 : s = (x :: lp2) ++ '@' :: (d0 ++ '.' :: t.reverse) ++ rest3 := by
    rw [← hsplit, hrest2, hdreq2]
    simp
  rcases h3 with h3 | h3
  · left
    refine ⟨x :: lp2, d0, t.reverse, by simp, hlpC, hd0, hd0D, htlen, htalpha, ?_⟩
    simp [hs2, h3]
  · right
    refine ⟨(x :: lp2) ++ '@' :: (d0 ++ '.' :: t.reverse), ?_,
      x :: lp2, d0, t.reverse, by simp, hlpC, hd0, hd0D, htlen, htalpha, rfl⟩
    simp [hs2, h3]

/-- C7 counterexample: is_valid_email accepts "user@example.com\n", which is
not a full-string local@domain.tld match — re.match's `$` also matches just
before a single terminating newline, so the claimed anchored full-string
contract fails on strings with a trailing newline. -/
theorem c7_counterexample :
    is_valid_email "user@example.com\n" = true ∧
    ¬ EmailShapeL ("user@example.com\n" : String).data := by
  constructor
  · rfl
  · rintro ⟨lp, d, t, hlp, hlpc, hd, hdc, ht2, htc, heq⟩
    rcases List.eq_nil_or_concat t with rfl | ⟨t0, a, rfl⟩
    · simp at ht2
    · have hlast := congrArg List.getLast? heq
      have hassoc : lp ++ '@' :: (d ++ '.' :: t0.concat a)
          = (lp ++ '@' :: (d ++ '.' :: t0)) ++ [a] := by
        simp [List.concat_eq_append]
      rw [hassoc, List.getLast?_concat] at hlast
      have hlhs : (("user@example.com\n" : String).data).getLast? = some '\n' := by decide
      rw [hlhs] at hlast
      have ha : '\n' = a := Option.some.inj hlast
      have hfin := htc a (by simp [List.concat_eq_append])
      rw [← ha] at hfin
      exact absurd hfin (by decide)

/-- C7 amended: is_valid_email is the anchored match of local@domain.tld
(local part in [A-Za-z0-9._%+-]+, domain in [A-Za-z0-9.-]+, TLD of 2 or more
letters, both letter cases accepted throughout) on the full string up to one
optional trailing newline admitted by Python's `$` anchor; it accepts
user@example.com and a.b+c@sub.example.co and rejects user@.com, user@com,
@example.com and the empty string. -/
theorem c7_amended_format_validator :
    (∀ s : String, is_valid_email s = true ↔
      (EmailShapeL s.data ∨ ∃ u, s.data = u ++ ['\n'] ∧ EmailShapeL u)) ∧
    is_valid_email "user@example.com" = true ∧
    is_valid_email "a.b+c@sub.example.co" = true ∧
    is_valid_email "user@.com" = false ∧
    is_valid_email "user@com" = false ∧
    is_valid_email "@example.com" = false ∧
    is_valid_email "" = false := by
  refine ⟨?_, rfl, rfl, rfl, rfl, rfl, rfl⟩
  intro s
  constructor
  · exact shape_of_isValidEmailL s.data
  · rintro (hsh | ⟨u, hu, hsh⟩)
    · have h1 := isValidEmailL_of_shape s.data [] hsh (Or.inl rfl)
      simpa [is_valid_email] using h1
    · have h1 := isValidEmailL_of_shape u ['\n'] hsh (Or.inr rfl)
      unfold is_valid_email
      rw [hu]
      exact h1

/-! ### Dedup stage of filter_and_validate_emails (src lines 699-710)

The loop carries the `seen` set (modelled as a list with membership), the
`unique_emails` accumulator and the `duplicates_count` counter. -/

/-- The dedup loop body, folded over the extracted addresses. -/
def dedupGo : List String → List String → Nat → List String → List String × Nat
  | _, unique, dups, [] => (unique, dups)
  | seen, unique, dups, e :: rest =>
    if e ∈ seen then dedupGo seen unique (dups + 1) rest
    else dedupGo (e :: seen) (unique ++ [e]) dups rest

/-- Step 2 of filter_and_validate_emails: remove duplicates preserving order,
counting removed occurrences. -/
def removeDuplicates (l : List String) : List String × Nat := dedupGo [] [] 0 l

/-- Reference form of "keep exactly the first occurrence of each address":
keep the head, then recurse on the tail purged of that address. -/
def keepFirsts : List String → List String
  | [] => []
  | x :: xs => x :: keepFirsts (xs.filter (fun y => y ≠ x))
termination_by l => l.length
decreasing_by
  simp only [List.length_cons]
  have := List.length_filter_le (fun y => y ≠ x) xs
  omega

theorem keepFirsts_nil : keepFirsts [] = [] := by
  rw [keepFirsts]

theorem keepFirsts_cons (x : String) (xs : List String) :
    keepFirsts (x :: xs) = x :: keepFirsts (xs.filter (fun y => y ≠ x)) := by
  rw [keepFirsts]

/-- dedupGo computes keepFirsts of the input purged of the already-seen set,
and adds one removal per purged or repeated element. -/
theorem dedupGo_spec (l : List String) : ∀ (seen unique : List String) (dups : Nat),
    (dedupGo seen unique dups l).1
      = unique ++ keepFirsts (l.filter (fun y => y ∉ seen)) ∧
    (dedupGo seen unique dups l).2 + (dedupGo seen unique dups l).1.length
      = dups + unique.length + l.length := by
  induction l with
  | nil => intro seen unique dups; simp [dedupGo, keepFirsts_nil]
  | cons x xs ih =>
    intro seen unique dups
    by_cases hx : x ∈ seen
    · have h1 := ih seen unique (dups + 1)
      have hfilter : (x :: xs).filter (fun y => y ∉ seen) = xs.filter (fun y => y ∉ seen) := by
        simp [List.filter_cons, hx]
      rw [show dedupGo seen unique dups (x :: xs) = dedupGo seen unique (dups + 1) xs by
        simp [dedupGo, hx]]
      refine ⟨by rw [h1.1, hfilter], ?_⟩
      rw [h1.2]
      simp
      omega
    · have h1 := ih (x :: seen) (unique ++ [x]) dups
      have hfilter : (x :: xs).filter (fun y => y ∉ seen)
          = x :: xs.filter (fun y => y ∉ seen) := by
        simp [List.filter_cons, hx]
      rw [show dedupGo seen unique dups (x :: xs) = dedupGo (x :: seen) (unique ++ [x]) dups xs by
        simp [dedupGo, hx]]
      have hff : xs.filter (fun y => y ∉ x :: seen)
          = (xs.filter (fun y => y ∉ seen)).filter (fun y => y ≠ x) := by
        rw [List.filter_filter]
        apply List.filter_congr
        intro a _
        by_cases hax : a = x <;> by_cases has : a ∈ seen <;> simp [hax, has, hx]
      constructor
      · rw [h1.1, hfilter, keepFirsts_cons, ← hff]
        simp
      · rw [h1.2]
        simp
        omega

/-- C8: the dedup stage keeps exactly the first occurrence of each address in
input order (keepFirsts), counts every later occurrence in
duplicates_removed (kept + removed = input length), and on the example list
produces [a@x.com, b@y.com] with 2 duplicates removed. -/
theorem c8_dedup_first_occurrence :
    (∀ l : List String, (removeDuplicates l).1 = keepFirsts l ∧
      (removeDuplicates l).2 + (keepFirsts l).length = l.length) ∧
    removeDuplicates ["a@x.com", "a@x.com", "b@y.com", "a@x.com"]
      = (["a@x.com", "b@y.com"], 2) := by
  constructor
  · intro l
    have h := dedupGo_spec l [] [] 0
    have hfilter : l.filter (fun y => y ∉ ([] : List String)) = l := by simp
    rw [hfilter] at h
    constructor
    · rw [removeDuplicates, h.1]
      simp
    · have h2 := h.2
      rw [h.1] at h2
      simpa [removeDuplicates] using h2
  · decide

/-! ### External validation: validate_emails_with_disify (src lines 591-675)

Each batch's network interaction is an environment value `env i` for the i-th
batch: either the mass-validation HTTP response (status, parsed JSON body,
and — when a session is present — the follow-up view request's status and
text), or a raised exception anywhere inside the batch's try block.  JSON
parsing of the 200 response is modelled as total via the DisifyJson record. -/

structure DisifyJson where
  session : Option String
  total : Nat
  invalid_format : Nat
  invalid_dns : Nat
  disposable : Nat
  valid : Nat
deriving DecidableEq, Repr

inductive BatchOutcome where
  | resp (status : Nat) (json : DisifyJson) (viewStatus : Nat) (viewText : String)
  | exc (msg : String)
deriving DecidableEq, Repr

structure DisifyStats where
  total : Nat
  invalid_format : Nat
  invalid_dns : Nat
  disposable : Nat
  unique : Nat
  valid : Nat
deriving DecidableEq, Repr

/-- Parse the view endpoint's newline-delimited body (src lines 646-649). -/
def pyParseView (vt : String) : List String :=
  let t := pyStrip vt
  if t = "" then []
  else ((splitLinesL t.data).map (fun l => String.mk (stripL l))).filter (fun e => e ≠ "")

/-- Batching: email_list[i:i+500] for i in range(0, len, 500). -/
def chunk500 : List String → List (List String)
  | [] => []
  | c :: rest => ((c :: rest).take 500) :: chunk500 ((c :: rest).drop 500)
termination_by l => l.length
decreasing_by
  simp [List.length_drop]
  omega

/-- A batch counts as failed when the mass request returns non-200 or any
transport exception is raised. -/
def batchFails : BatchOutcome → Bool
  | .resp status _ _ _ => status ≠ 200
  | .exc _ => true

/-- The addresses a single batch contributes to all_valid_emails. -/
def batchEmails (batch : List String) : BatchOutcome → List String
  | .resp status json viewStatus viewText =>
    if status = 200 then
      match json.session with
      | some _ => if viewStatus = 200 then pyParseView viewText else []
      | none => []
    else batch.filter (fun e => is_valid_email e)
  | .exc _ => batch.filter (fun e => is_valid_email e)

structure BatchStat where
  total : Nat
  invalid_format : Nat
  invalid_dns : Nat
  disposable : Nat
  valid : Nat
deriving DecidableEq, Repr

/-- The counters a single batch adds to total_stats. -/
def batchStat : BatchOutcome → BatchStat
  | .resp status json _ _ =>
    if status = 200 then ⟨json.total, json.invalid_format, json.invalid_dns,
      json.disposable, json.valid⟩
    else ⟨0, 0, 0, 0, 0⟩
  | .exc _ => ⟨0, 0, 0, 0, 0⟩

/-- The per-batch loop of validate_emails_with_disify (src lines 623-672). -/
def disifyGo (env : Nat → BatchOutcome) : Nat → List String → DisifyStats →
    List (List String) → List String × DisifyStats
  | _, emails, stats, [] => (emails, stats)
  | i, emails, stats, batch :: rest =>
    match env i with
    | .resp status json viewStatus viewText =>
      if status = 200 then
        let got :=
          match json.session with
          | some _ => if viewStatus = 200 then pyParseView viewText else []
          | none => []
        disifyGo env (i + 1) (emails ++ got)
          { stats with total := stats.total + json.total,
                       invalid_format := stats.invalid_format + json.invalid_format,
                       invalid_dns := stats.invalid_dns + json.invalid_dns,
                       disposable := stats.disposable + json.disposable,
                       valid := stats.valid + json.valid } rest
      else
        disifyGo env (i + 1) (emails ++ batch.filter (fun e => is_valid_email e)) stats rest
    | .exc _ =>
      disifyGo env (i + 1) (emails ++ batch.filter (fun e => is_valid_email e)) stats rest

/-- validate_emails_with_disify: batch the list, run the loop, then override
the valid counter with the length of the accumulated output (src line 674). -/
def validate_emails_with_disify (env : Nat → BatchOutcome) (email_list : List String) :
    List String × DisifyStats :=
  if email_list = [] then ([], ⟨0, 0, 0, 0, 0, 0⟩)
  else
    let res := disifyGo env 0 [] ⟨0, 0, 0, 0, email_list.length, 0⟩ (chunk500 email_list)
    (res.1, { res.2 with valid := res.1.length })

/-- Componentwise sum of batch stat contributions. -/
def sumBatchStat (l : List BatchStat) : BatchStat :=
  match l with
  | [] => ⟨0, 0, 0, 0, 0⟩
  | b :: rest =>
    let s := sumBatchStat rest
    ⟨b.total + s.total, b.invalid_format + s.invalid_format,
     b.invalid_dns + s.invalid_dns, b.disposable + s.disposable, b.valid + s.valid⟩

/-- enumFrom unfolding on a cons cell. -/
theorem enumFrom_cons_eq (i : Nat) (c : List String) (rest : List (List String)) :
    List.enumFrom i (c :: rest) = (i, c) :: List.enumFrom (i + 1) rest := rfl

/-- The loop is the concatenation of per-batch contributions plus the
componentwise sum of per-batch counters. -/
theorem disifyGo_spec (env : Nat → BatchOutcome) :
    ∀ (chunks : List (List String)) (i : Nat) (emails : List String) (stats : DisifyStats),
      disifyGo env i emails stats chunks =
        (emails ++ ((chunks.enumFrom i).map (fun p => batchEmails p.2 (env p.1))).flatten,
         { total := stats.total
             + (sumBatchStat ((chunks.enumFrom i).map (fun p => batchStat (env p.1)))).total,
           invalid_format := stats.invalid_format
             + (sumBatchStat ((chunks.enumFrom i).map (fun p => batchStat (env p.1)))).invalid_format,
           invalid_dns := stats.invalid_dns
             + (sumBatchStat ((chunks.enumFrom i).map (fun p => batchStat (env p.1)))).invalid_dns,
           disposable := stats.disposable
             + (sumBatchStat ((chunks.enumFrom i).map (fun p => batchStat (env p.1)))).disposable,
           unique := stats.unique,
           valid := stats.valid
             + (sumBatchStat ((chunks.enumFrom i).map (fun p => batchStat (env p.1)))).valid }) := by
  intro chunks
  induction chunks with
  | nil =>
    intro i emails stats
    simp [disifyGo, sumBatchStat]
  | cons batch rest ih =>
    intro i emails stats
    cases henv : env i with
    | resp status json viewStatus viewText =>
      by_cases h200 : status = 200
      · have hbe : batchEmails batch (BatchOutcome.resp status json viewStatus viewText)
            = (match json.session with
               | some _ => if viewStatus = 200 then pyParseView viewText else []
               | none => []) := by
          simp [batchEmails, h200]
        have hbs : batchStat (BatchOutcome.resp status json viewStatus viewText)
            = ⟨json.total, json.invalid_format, json.invalid_dns, json.disposable,
               json.valid⟩ := by
          simp [batchStat, h200]
        rw [show disifyGo env i emails stats (batch :: rest)
            = disifyGo env (i + 1)
                (emails ++ match json.session with
                  | some _ => if viewStatus = 200 then pyParseView viewText else []
                  | none => [])
                { stats with total := stats.total + json.total,
                             invalid_format := stats.invalid_format + json.invalid_format,
                             invalid_dns := stats.invalid_dns + json.invalid_dns,
                             disposable := stats.disposable + json.disposable,
                             valid := stats.valid + json.valid } rest by
              simp [disifyGo, henv, h200]]
        rw [ih]
        simp only [enumFrom_cons_eq, List.map_cons, henv, hbe, hbs, sumBatchStat,
          List.flatten_cons, Prod.mk.injEq]
        refine ⟨by simp [List.append_assoc], ?_⟩
        simp only [DisifyStats.mk.injEq]
        refine ⟨by omega, by omega, by omega, by omega, trivial, by omega⟩
      · have hbe : batchEmails batch (BatchOutcome.resp status json viewStatus viewText)
            = batch.filter (fun e => is_valid_email e) := by
          simp [batchEmails, h200]
        have hbs : batchStat (BatchOutcome.resp status json viewStatus viewText)
            = ⟨0, 0, 0, 0, 0⟩ := by
          simp [batchStat, h200]
        rw [show disifyGo env i emails stats (batch :: rest)
            = disifyGo env (i + 1) (emails ++ batch.filter (fun e => is_valid_email e))
                stats rest by simp [disifyGo, henv, h200]]
        rw [ih]
        simp only [enumFrom_cons_eq, List.map_cons, henv, hbe, hbs, sumBatchStat,
          List.flatten_cons, Prod.mk.injEq]
        refine ⟨by simp [List.append_assoc], ?_⟩
        simp only [DisifyStats.mk.injEq]
        refine ⟨by omega, by omega, by omega, by omega, trivial, by omega⟩
    | exc msg =>
      have hbe : batchEmails batch (BatchOutcome.exc msg)
          = batch.filter (fun e => is_valid_email e) := by
        simp [batchEmails]
      have hbs : batchStat (BatchOutcome.exc msg) = ⟨0, 0, 0, 0, 0⟩ := by
        simp [batchStat]
      rw [show disifyGo env i emails stats (batch :: rest)
          = disifyGo env (i + 1) (emails ++ batch.filter (fun e => is_valid_email e))
              stats rest by simp [disifyGo, henv]]
      rw [ih]
      simp only [enumFrom_cons_eq, List.map_cons, henv, hbe, hbs, sumBatchStat,
        List.flatten_cons, Prod.mk.injEq]
      refine ⟨by simp [List.append_assoc], ?_⟩
      simp only [DisifyStats.mk.injEq]
      refine ⟨by omega, by omega, by omega, by omega, trivial, by omega⟩

/-- C4: per-batch degradation.  The accumulated output is always the
concatenation of every batch's contribution (the pipeline never aborts), a
batch whose request fails (non-200 or exception) contributes exactly its
members passing local format validation, the disposable and invalid_dns
totals are sums of per-batch counter contributions, and a failed batch's
counter contribution is zero. -/
theorem c4_batch_fallback (env : Nat → BatchOutcome) (l : List String) (k : Nat)
    (bk : List String) (hk : (chunk500 l)[k]? = some bk)
    (hfail : batchFails (env k) = true) :
    (validate_emails_with_disify env l).1
      = ((chunk500 l).enum.map (fun p => batchEmails p.2 (env p.1))).flatten ∧
    ((chunk500 l).enum.map (fun p => batchEmails p.2 (env p.1)))[k]?
      = some (bk.filter (fun e => is_valid_email e)) ∧
    (validate_emails_with_disify env l).2.disposable
      = (sumBatchStat ((chunk500 l).enum.map (fun p => batchStat (env p.1)))).disposable ∧
    (validate_emails_with_disify env l).2.invalid_dns
      = (sumBatchStat ((chunk500 l).enum.map (fun p => batchStat (env p.1)))).invalid_dns ∧
    batchStat (env k) = ⟨0, 0, 0, 0, 0⟩ := by
  have hlne : l ≠ [] := by
    intro hnil
    rw [hnil] at hk
    simp [chunk500] at hk
  have hspec := disifyGo_spec env (chunk500 l) 0 [] ⟨0, 0, 0, 0, l.length, 0⟩
  have hzero : batchStat (env k) = ⟨0, 0, 0, 0, 0⟩ := by
    cases henvk : env k with
    | resp status json viewStatus viewText =>
      rw [henvk] at hfail
      simp [batchFails] at hfail
      simp [batchStat, hfail]
    | exc msg => simp [batchStat]
  have hout : validate_emails_with_disify env l =
      ((disifyGo env 0 [] ⟨0, 0, 0, 0, l.length, 0⟩ (chunk500 l)).1,
       { (disifyGo env 0 [] ⟨0, 0, 0, 0, l.length, 0⟩ (chunk500 l)).2 with
         valid := (disifyGo env 0 [] ⟨0, 0, 0, 0, l.length, 0⟩ (chunk500 l)).1.length }) := by
    simp [validate_emails_with_disify, hlne]
  have hbatchk : batchEmails bk (env k) = bk.filter (fun e => is_valid_email e) := by
    cases henvk : env k with
    | resp status json viewStatus viewText =>
      rw [henvk] at hfail
      simp [batchFails] at hfail
      simp [batchEmails, hfail]
    | exc msg => simp [batchEmails]
  refine ⟨?_, ?_, ?_, ?_, hzero⟩
  · rw [hout]
    rw [hspec]
    simp [List.enum]
  · rw [List.getElem?_map, List.getElem?_enum, hk]
    simp [hbatchk]
  · rw [hout]
    rw [hspec]
    simp [List.enum]
  · rw [hout]
    rw [hspec]
    simp [List.enum]

/-- A nonempty list of at most 500 addresses forms a single batch. -/
theorem chunk500_single (l : List String) (hne : l ≠ []) (hlen : l.length ≤ 500) :
    chunk500 l = [l] := by
  cases l with
  | nil => exact absurd rfl hne
  | cons c rest =>
    have h1 : (c :: rest).take 500 = c :: rest := List.take_of_length_le hlen
    have h2 : (c :: rest).drop 500 = [] := by
      rw [List.drop_eq_nil_iff_le]
      exact hlen
    simp [chunk500, h1, h2]

/-- Witness for C4: a two-address list in one batch whose request raises;
only the format-valid member survives and the counters stay zero. -/
theorem c4_batch_fallback_witness :
    (validate_emails_with_disify (fun _ => .exc "boom") ["a@b.cd", "!bad"]).1 = ["a@b.cd"] ∧
    (validate_emails_with_disify (fun _ => .exc "boom") ["a@b.cd", "!bad"]).2.disposable = 0 ∧
    (validate_emails_with_disify (fun _ => .exc "boom") ["a@b.cd", "!bad"]).2.invalid_dns = 0 := by
  have hchunk : chunk500 ["a@b.cd", "!bad"] = [["a@b.cd", "!bad"]] :=
    chunk500_single _ (by decide) (by decide)
  have h := c4_batch_fallback (fun _ => .exc "boom") ["a@b.cd", "!bad"] 0
    ["a@b.cd", "!bad"] (by rw [hchunk]; rfl) rfl
  refine ⟨?_, ?_, ?_⟩
  · rw [h.1, hchunk]
    decide
  · rw [h.2.2.1, hchunk]
    decide
  · rw [h.2.2.2.1, hchunk]
    decide

/-! ### Extraction: extract_email_from_line (src lines 568-588)

re.findall(r'\b[a-zA-Z0-9._%+-]+@[a-zA-Z0-9.-]+\.[a-zA-Z]{2,}\b', line) is
compiled to a deterministic scanner.  At a given start position the match is
forced: '@' is in neither class, so the local run is maximal; the dot of \.
must lie inside the maximal domain-class run with the greedy letter run after
it (letters are domain characters, so a shorter letter run is always followed
by a letter and can never satisfy the trailing \b); the engine backtracks the
domain run from the longest candidate, i.e. dot positions are tried from
right to left.  \b is tested against ASCII word characters. -/

/-- Regex \w (ASCII scope). -/
def isWordChar (c : Char) : Bool := c.isAlpha || c.isDigit || c = '_'

/-- Try dot position k inside the maximal domain run r (rest3 follows r):
r[k] must be '.', at least two letters must follow greedily, and the
character after the letter run (in r, then rest3, else end of input) must
not be a word character. Returns the consumed length k + 1 + letters. -/
def domainTry (r rest3 : List Char) (k : Nat) : Option Nat :=
  if r[k]? = some '.' then
    let m := ((r.drop (k + 1)).takeWhile Char.isAlpha).length
    if 2 ≤ m then
      match (r.drop (k + 1 + m)).head?.orElse (fun _ => rest3.head?) with
      | none => some (k + 1 + m)
      | some c => if isWordChar c then none else some (k + 1 + m)
    else none
  else none

/-- Backtracking over dot positions, k down to 1. -/
def domainSearch (r rest3 : List Char) : Nat → Option Nat
  | 0 => none
  | k + 1 =>
    match domainTry r rest3 (k + 1) with
    | some n => some n
    | none => domainSearch r rest3 k

/-- Attempt the findall pattern at the current position; prevW is the
wordness of the preceding character (false at the string start).  Returns
the length of the match when one starts here. -/
def matchLen (prevW : Bool) (s : List Char) : Option Nat :=
  match s with
  | [] => none
  | c0 :: _ =>
    if isWordChar c0 = prevW then none
    else
      let run := s.takeWhile charL
      if run.length = 0 then none
      else
        match s.drop run.length with
        | [] => none
        | a :: rest2 =>
          if a = '@' then
            let r := rest2.takeWhile charD
            let rest3 := rest2.drop r.length
            match domainSearch r rest3 (r.length - 1) with
            | some dlen => some (run.length + 1 + dlen)
            | none => none
          else none

theorem matchLen_pos (prevW : Bool) (s : List Char) (n : Nat)
    (h : matchLen prevW s = some n) : 1 ≤ n ∧ s ≠ [] := by
  cases s with
  | nil => simp [matchLen] at h
  | cons c0 cs =>
    refine ⟨?_, by simp⟩
    simp only [matchLen] at h
    by_cases h1 : isWordChar c0 = prevW
    · rw [if_pos h1] at h
      exact absurd h (by simp)
    · rw [if_neg h1] at h
      by_cases h2 : (List.takeWhile charL (c0 :: cs)).length = 0
      · rw [if_pos h2] at h
        exact absurd h (by simp)
      · rw [if_neg h2] at h
        rcases hdrop : List.drop (List.takeWhile charL (c0 :: cs)).length (c0 :: cs)
          with _ | ⟨a, rest2⟩ <;> rw [hdrop] at h
        · exact absurd h (by simp)
        · dsimp only at h
          by_cases ha : a = '@'
          · rw [if_pos ha] at h
            rcases hds : domainSearch (List.takeWhile charD rest2)
                (List.drop (List.takeWhile charD rest2).length rest2)
                ((List.takeWhile charD rest2).length - 1) with _ | dlen <;> rw [hds] at h
            · exact absurd h (by simp)
            · injection h with h3
              omega
          · rw [if_neg ha] at h
            exact absurd h (by simp)

/-- Scan the string left to right collecting non-overlapping matches
(re.findall). -/
def findallGo (prevW : Bool) (s : List Char) : List (List Char) :=
  match hm : matchLen prevW s with
  | some n => s.take n :: findallGo (isWordChar ((s.take n).getLastD ' ')) (s.drop n)
  | none =>
    match s with
    | [] => []
    | _ :: rest => findallGo (isWordChar (s.headD ' ')) rest
termination_by s.length
decreasing_by
  · have hp := matchLen_pos prevW s n hm
    have hlen : 0 < s.length := List.length_pos.2 hp.2
    simp [List.length_drop]
    omega
  · simp

/-- re.findall of the email pattern over a whole string. -/
def findall (s : List Char) : List (List Char) := findallGo false s

/-- extract_email_from_line (src lines 568-588): strip, find all pattern
matches, return the first one passing is_valid_email, lowercased. -/
def extract_email_from_line (line : String) : Option String :=
  let l := pyStrip line
  if l = "" then none
  else
    match (findall l.data).find? (fun m => isValidEmailL m) with
    | some m => some (String.mk (m.map Char.toLower))
    | none => none

/-! ### SanitizationPipeline: filter_and_validate_emails (src lines 678-753) -/

structure PipelineStats where
  total_lines : Nat
  extracted_emails : Nat
  duplicates_removed : Nat
  invalid_lines : Nat
  invalid_emails : Nat
  format_valid_emails : Nat
  disposable_emails : Nat
  invalid_dns : Nat
  final_valid_emails : Nat
deriving DecidableEq, Repr

/-- filter_and_validate_emails: extract, dedup, format-filter, optional
external validation, and the stats dictionary (src lines 741-751). -/
def filter_and_validate_emails (env : Nat → BatchOutcome) (emails : List String)
    (use_disify : Bool) : List String × PipelineStats :=
  let extracted := emails.filterMap extract_email_from_line
  let invalid_lines := (emails.filter (fun line => extract_email_from_line line = none)).length
  let dedup := removeDuplicates extracted
  let format_valid := dedup.1.filter (fun e => is_valid_email e)
  let invalid_emails := (dedup.1.filter (fun e => !is_valid_email e)).length
  let res :=
    if use_disify && !format_valid.isEmpty then
      validate_emails_with_disify env format_valid
    else
      (format_valid, ⟨format_valid.length, 0, 0, 0, format_valid.length, format_valid.length⟩)
  (res.1,
   { total_lines := emails.length, extracted_emails := extracted.length,
     duplicates_removed := dedup.2, invalid_lines := invalid_lines,
     invalid_emails := invalid_emails, format_valid_emails := format_valid.length,
     disposable_emails := res.2.disposable, invalid_dns := res.2.invalid_dns,
     final_valid_emails := res.1.length })

/-- C6: for every input line list and every external-validator behavior
(success, per-batch failure, or disabled), final_valid_emails equals the
length of the returned recipient list; and the external path itself reports
a valid count recomputed as the length of its accumulated output. -/
theorem c6_stats_consistency (env : Nat → BatchOutcome) (emails : List String)
    (use_disify : Bool) :
    (filter_and_validate_emails env emails use_disify).2.final_valid_emails
      = (filter_and_validate_emails env emails use_disify).1.length ∧
    ∀ l : List String,
      (validate_emails_with_disify env l).2.valid
        = (validate_emails_with_disify env l).1.length := by
  constructor
  · rfl
  · intro l
    by_cases hl : l = []
    · subst hl
      rfl
    · simp [validate_emails_with_disify, hl]

/-! ### CampaignRunner: GraphEmailSender.send_emails_one_by_one (src 434-555)

The per-recipient send_email invocation is abstracted as the environment
`call i` for the i-th actual call: the result dict (success flag, optional
status code, optional error) or a raised exception.  Opening the progress
file is modelled as succeeding; the ledger file is its character content, a
write appends recipient ++ newline, and loading splits into lines, strips
and drops empties (src lines 459-471, 521-524).  The sleeps (5 s pacing,
30 s throttle cooldown) are pure waits with no effect on the tracked state
and are not recorded. -/

inductive CallOutcome where
  | res (success : Bool) (status_code : Option Nat) (error : Option String)
  | exc (msg : String)
deriving DecidableEq, Repr

structure RunRecord where
  success : Bool
  recipient : String
  status_code : Option Nat
  error : Option String
deriving DecidableEq, Repr

/-- Observable outcome of a campaign run: the results list, the recipients
for which send_email was invoked (in order), the addresses appended to the
ledger file (in order), and the final in-memory sent set. -/
structure RunOut where
  results : List RunRecord
  sends : List String
  appends : List String
  sent : List String
deriving DecidableEq, Repr

/-- Load the progress ledger: one address per line, stripped, empties
skipped (src lines 459-471). -/
def loadLinesL (l : List Char) : List String :=
  ((splitLinesL l).map (fun x => String.mk (stripL x))).filter (fun e => e ≠ "")

def loadProgress (content : String) : List String := loadLinesL content.data

/-- The SENDING loop (src lines 492-550). -/
def send_emails_go (call : Nat → CallOutcome) :
    List String → Nat → List String → List String → List String → List RunRecord → RunOut
  | [], _, sent, sends, appends, results => ⟨results, sends, appends, sent⟩
  | r :: rest, idx, sent, sends, appends, results =>
    if r ∈ sent then send_emails_go call rest idx sent sends appends results
    else
      match call idx with
      | .res true sc err =>
        send_emails_go call rest (idx + 1) (r :: sent) (sends ++ [r]) (appends ++ [r])
          (results ++ [⟨true, r, sc, err⟩])
      | .res false sc err =>
        send_emails_go call rest (idx + 1) sent (sends ++ [r]) appends
          (results ++ [⟨false, r, sc, err⟩])
      | .exc m =>
        send_emails_go call rest (idx + 1) sent (sends ++ [r]) appends
          (results ++ [⟨false, r, none, some m⟩])

/-- send_emails_one_by_one: load the ledger, slice by start_index, run the
loop. -/
def send_emails_one_by_one (call : Nat → CallOutcome) (recipient_list : List String)
    (start_index : Nat) (progressContent : String) : RunOut :=
  send_emails_go call (recipient_list.drop start_index) 0
    (loadProgress progressContent) [] [] []

/-- The ledger file content after a run: each appended address written as
its own newline-terminated line. -/
def ledgerAfter (init : String) (out : RunOut) : String :=
  String.mk (init.data ++ (out.appends.map (fun r => r.data ++ ['\n'])).flatten)

theorem splitLinesL_ne_nil (l : List Char) : splitLinesL l ≠ [] := by
  cases l with
  | nil => simp [splitLinesL]
  | cons c rest =>
    rw [splitLinesL]
    by_cases hc : c = '\n'
    · simp [hc]
    · simp only [hc, if_false]
      rcases h : splitLinesL rest with _ | ⟨a, b⟩ <;> simp



/-- A newline-free prefix forms exactly the first segment. -/
theorem splitLinesL_line (v : List Char) : ∀ w : List Char, (∀ c ∈ w, c ≠ '\n') →
    splitLinesL (w ++ '\n' :: v) = w :: splitLinesL v := by
  intro w
  induction w with
  | nil => intro _; simp [splitLinesL]
  | cons c w2 ih =>
    intro hw
    have hc : c ≠ '\n' := hw c (by simp)
    rw [List.cons_append, splitLinesL]
    simp only [hc, if_false]
    rw [ih (fun x hx => hw x (by simp [hx]))]

/-- The head of a dropWhile residue fails the predicate. -/
theorem dropWhile_head_false (p : Char → Bool) :
    ∀ (u : List Char) (a : Char) (rest : List Char),
      u.dropWhile p = a :: rest → p a = false := by
  intro u
  induction u with
  | nil => intro a rest h; simp [List.dropWhile] at h
  | cons c u2 ih =>
    intro a rest h
    rw [List.dropWhile_cons] at h
    by_cases hc : p c = true
    · rw [if_pos hc] at h
      exact ih a rest h
    · rw [if_neg hc] at h
      injection h with h1 h2
      subst h1
      simpa using hc

/-- Loading a ledger splits over an append when the prefix is empty or
newline-terminated (the prefix's segments are unchanged by the suffix). -/
theorem loadLinesL_append_wf (v : List Char) :
    ∀ (n : Nat) (u : List Char), u.length ≤ n → (u = [] ∨ u.getLast? = some '\n') →
      loadLinesL (u ++ v) = loadLinesL u ++ loadLinesL v := by
  intro n
  induction n with
  | zero =>
    intro u hlen hwf
    have hu : u = [] := by
      cases u with
      | nil => rfl
      | cons a b => simp at hlen
    subst hu
    have hempty : String.mk (stripL []) = "" := rfl
    simp [loadLinesL, splitLinesL, hempty]
  | succ m ih =>
    intro u hlen hwf
    rcases hwf with rfl | hwf
    · have hempty : String.mk (stripL []) = "" := rfl
      simp [loadLinesL, splitLinesL, hempty]
    · have hune : u ≠ [] := by
        intro hnil
        rw [hnil] at hwf
        simp at hwf
      have hmem : '\n' ∈ u := by
        obtain ⟨hne2, heq⟩ := List.mem_getLast?_eq_getLast (Option.mem_def.2 hwf)
        rw [heq]
        exact List.getLast_mem hne2
      have hdecomp := List.takeWhile_append_dropWhile (fun c => c != '\n') u
      rcases hdw : u.dropWhile (fun c => c != '\n') with _ | ⟨a, u2⟩
      · exfalso
        rw [hdw, List.append_nil] at hdecomp
        have hmem2 : '\n' ∈ u.takeWhile (fun c => c != '\n') := by
          rw [hdecomp]
          exact hmem
        have h2 := List.mem_takeWhile_imp hmem2
        simp at h2
      · have ha : a = '\n' := by
          have h3 := dropWhile_head_false (fun c => c != '\n') u a u2 hdw
          simpa using h3
        subst ha
        have hwnl : ∀ c ∈ u.takeWhile (fun c => c != '\n'), c ≠ '\n' := by
          intro c hc
          have h4 := List.mem_takeWhile_imp hc
          simp at h4
          exact h4
        have hu : u = u.takeWhile (fun c => c != '\n') ++ '\n' :: u2 := by
          rw [← hdw, hdecomp]
        have hu2wf : u2 = [] ∨ u2.getLast? = some '\n' := by
          cases hu2c : u2 with
          | nil => exact Or.inl rfl
          | cons x y =>
            right
            have hwf2 := hwf
            rw [hu, hu2c] at hwf2
            rw [List.getLast?_append_of_ne_nil _ (by simp : ('\n' :: x :: y) ≠ [])] at hwf2
            rw [List.getLast?_cons_cons] at hwf2
            exact hwf2
        have hlen2 : u2.length ≤ m := by
          have h5 := congrArg List.length hu
          simp [List.length_append] at h5
          omega
        have hres := ih u2 hlen2 hu2wf
        conv_lhs => rw [hu]
        rw [List.append_assoc, List.cons_append]
        rw [loadLinesL, splitLinesL_line (u2 ++ v) _ hwnl]
        conv_rhs => rw [hu, loadLinesL, splitLinesL_line u2 _ hwnl]
        rw [List.map_cons, List.filter_cons]
        conv_rhs => rw [List.map_cons, List.filter_cons]
        rw [show ((splitLinesL (u2 ++ v)).map (fun x => String.mk (stripL x))).filter
              (fun e => e ≠ "") = loadLinesL (u2 ++ v) from rfl,
            show ((splitLinesL u2).map (fun x => String.mk (stripL x))).filter
              (fun e => e ≠ "") = loadLinesL u2 from rfl, hres]
        by_cases hws : String.mk (stripL (u.takeWhile (fun c => c != '\n'))) = ""
        · simp [hws]
        · simp [hws]

/-- Loading exactly the writes of a run: each appended address is nonempty,
strip-invariant and newline-free, so it reloads as itself. -/
theorem loadLinesL_writes (appends : List String)
    (hclean : ∀ r ∈ appends, r ≠ "" ∧ stripL r.data = r.data ∧ '\n' ∉ r.data) :
    loadLinesL ((appends.map (fun r => r.data ++ ['\n'])).flatten) = appends := by
  induction appends with
  | nil =>
    have hempty : String.mk (stripL []) = "" := rfl
    simp [loadLinesL, splitLinesL, hempty]
  | cons r rest ih =>
    obtain ⟨hne, hstrip, hnl⟩ := hclean r (by simp)
    rw [List.map_cons, List.flatten_cons, List.append_assoc, List.singleton_append]
    rw [loadLinesL, splitLinesL_line _ _ (by
      intro c hc hceq
      subst hceq
      exact hnl hc)]
    rw [List.map_cons, List.filter_cons]
    have hmk : String.mk (stripL r.data) = r := by rw [hstrip]
    rw [hmk]
    have ih2 := ih (fun x hx => hclean x (by simp [hx]))
    simp only [loadLinesL] at ih2
    simp [hne]
    simpa using ih2

/-- The sent set only grows during the loop. -/
theorem go_sent_mono (call : Nat → CallOutcome) :
    ∀ (rest : List String) (idx : Nat) (sent sends appends : List String)
      (results : List RunRecord) (x : String), x ∈ sent →
      x ∈ (send_emails_go call rest idx sent sends appends results).sent := by
  intro rest
  induction rest with
  | nil => intro idx sent sends appends results x hx; simpa [send_emails_go] using hx
  | cons r rest2 ih =>
    intro idx sent sends appends results x hx
    rw [send_emails_go]
    by_cases hr : r ∈ sent
    · simp only [hr, if_true]
      exact ih idx sent sends appends results x hx
    · simp only [hr, if_false]
      cases call idx with
      | res success sc err =>
        cases success with
        | true => exact ih _ _ _ _ _ x (by simp [hx])
        | false => exact ih _ _ _ _ _ x hx
      | exc m => exact ih _ _ _ _ _ x hx

/-- C1 skip invariant: an address in the sent set is never sent nor appended
by the rest of the loop. -/
theorem go_skip (call : Nat → CallOutcome) :
    ∀ (rest : List String) (idx : Nat) (sent sends appends : List String)
      (results : List RunRecord) (r : String),
      r ∈ sent → r ∉ sends → r ∉ appends →
      r ∉ (send_emails_go call rest idx sent sends appends results).sends ∧
      r ∉ (send_emails_go call rest idx sent sends appends results).appends := by
  intro rest
  induction rest with
  | nil =>
    intro idx sent sends appends results r hs h1 h2
    simp only [send_emails_go]
    exact ⟨h1, h2⟩
  | cons x rest2 ih =>
    intro idx sent sends appends results r hs h1 h2
    rw [send_emails_go]
    by_cases hx : x ∈ sent
    · simp only [hx, if_true]
      exact ih idx sent sends appends results r hs h1 h2
    · have hxr : x ≠ r := by
        intro hxe
        subst hxe
        exact hx hs
      simp only [hx, if_false]
      cases call idx with
      | res success sc err =>
        cases success with
        | true =>
          exact ih _ _ _ _ _ r (by simp [hs]) (by simp [h1, Ne.symm hxr])
            (by simp [h2, Ne.symm hxr])
        | false =>
          exact ih _ _ _ _ _ r hs (by simp [h1, Ne.symm hxr]) h2
      | exc m =>
        exact ih _ _ _ _ _ r hs (by simp [h1, Ne.symm hxr]) h2

/-- If every remaining recipient is already in the sent set, the loop is a
no-op. -/
theorem go_all_sent (call : Nat → CallOutcome) :
    ∀ (rest : List String) (idx : Nat) (sent sends appends : List String)
      (results : List RunRecord), (∀ x ∈ rest, x ∈ sent) →
      send_emails_go call rest idx sent sends appends results
        = ⟨results, sends, appends, sent⟩ := by
  intro rest
  induction rest with
  | nil => intro idx sent sends appends results _; rfl
  | cons r rest2 ih =>
    intro idx sent sends appends results hall
    rw [send_emails_go]
    simp only [hall r (by simp), if_true]
    exact ih idx sent sends appends results (fun x hx => hall x (by simp [hx]))

/-- Under an always-successful environment, every remaining recipient ends
in the sent set. -/
theorem go_success_covers (call : Nat → CallOutcome)
    (hcall : ∀ i, ∃ sc err, call i = .res true sc err) :
    ∀ (rest : List String) (idx : Nat) (sent sends appends : List String)
      (results : List RunRecord) (x : String), x ∈ rest →
      x ∈ (send_emails_go call rest idx sent sends appends results).sent := by
  intro rest
  induction rest with
  | nil => intro idx sent sends appends results x hx; simp at hx
  | cons r rest2 ih =>
    intro idx sent sends appends results x hx
    rw [send_emails_go]
    by_cases hr : r ∈ sent
    · simp only [hr, if_true]
      rcases List.mem_cons.1 hx with rfl | hx2
      · exact go_sent_mono call rest2 idx sent sends appends results x hr
      · exact ih idx sent sends appends results x hx2
    · simp only [hr, if_false]
      obtain ⟨sc, err, hcallidx⟩ := hcall idx
      rw [hcallidx]
      rcases List.mem_cons.1 hx with rfl | hx2
      · exact go_sent_mono call rest2 _ _ _ _ _ x (by simp)
      · exact ih _ _ _ _ _ x hx2

/-- The appends accumulator only grows during the loop. -/
theorem go_appends_mono (call : Nat → CallOutcome) :
    ∀ (rest : List String) (idx : Nat) (sent sends appends : List String)
      (results : List RunRecord) (x : String), x ∈ appends →
      x ∈ (send_emails_go call rest idx sent sends appends results).appends := by
  intro rest
  induction rest with
  | nil => intro idx sent sends appends results x hx; simpa [send_emails_go] using hx
  | cons r rest2 ih =>
    intro idx sent sends appends results x hx
    rw [send_emails_go]
    by_cases hr : r ∈ sent
    · simp only [hr, if_true]
      exact ih idx sent sends appends results x hx
    · simp only [hr, if_false]
      cases call idx with
      | res success sc err =>
        cases success with
        | true => exact ih _ _ _ _ _ x (by simp [hx])
        | false => exact ih _ _ _ _ _ x hx
      | exc m => exact ih _ _ _ _ _ x hx

/-- Everything in the final sent set was loaded from the ledger or appended
during the run. -/
theorem go_sent_sub (call : Nat → CallOutcome) :
    ∀ (rest : List String) (idx : Nat) (sent sends appends : List String)
      (results : List RunRecord) (x : String),
      x ∈ (send_emails_go call rest idx sent sends appends results).sent →
      x ∈ sent ∨ x ∈ (send_emails_go call rest idx sent sends appends results).appends := by
  intro rest
  induction rest with
  | nil =>
    intro idx sent sends appends results x hx
    simp only [send_emails_go] at hx ⊢
    exact Or.inl hx
  | cons r rest2 ih =>
    intro idx sent sends appends results x hx
    rw [send_emails_go] at hx ⊢
    by_cases hr : r ∈ sent
    · simp only [hr, if_true] at hx ⊢
      exact ih idx sent sends appends results x hx
    · simp only [hr, if_false] at hx ⊢
      cases hcl : call idx with
      | res success sc err =>
        rw [hcl] at hx
        cases success with
        | true =>
          rcases ih _ _ _ _ _ x hx with h | h
          · rcases List.mem_cons.1 h with rfl | h2
            · right
              exact go_appends_mono call rest2 (idx + 1) (x :: sent) (sends ++ [x])
                (appends ++ [x]) (results ++ [⟨true, x, sc, err⟩]) x (by simp)
            · exact Or.inl h2
          · exact Or.inr h
        | false =>
          rcases ih _ _ _ _ _ x hx with h | h
          · exact Or.inl h
          · exact Or.inr h
      | exc m =>
        rw [hcl] at hx
        rcases ih _ _ _ _ _ x hx with h | h
        · exact Or.inl h
        · exact Or.inr h

/-- Appended addresses are accumulator entries or recipients. -/
theorem go_appends_from (call : Nat → CallOutcome) :
    ∀ (rest : List String) (idx : Nat) (sent sends appends : List String)
      (results : List RunRecord) (x : String),
      x ∈ (send_emails_go call rest idx sent sends appends results).appends →
      x ∈ appends ∨ x ∈ rest := by
  intro rest
  induction rest with
  | nil =>
    intro idx sent sends appends results x hx
    simp only [send_emails_go] at hx
    exact Or.inl hx
  | cons r rest2 ih =>
    intro idx sent sends appends results x hx
    rw [send_emails_go] at hx
    by_cases hr : r ∈ sent
    · simp only [hr, if_true] at hx
      rcases ih _ _ _ _ _ x hx with h | h
      · exact Or.inl h
      · exact Or.inr (by simp [h])
    · simp only [hr, if_false] at hx
      cases hcl : call idx with
      | res success sc err =>
        rw [hcl] at hx
        cases success with
        | true =>
          rcases ih _ _ _ _ _ x hx with h | h
          · rcases List.mem_append.1 h with h2 | h2
            · exact Or.inl h2
            · exact Or.inr (by simp at h2; simp [h2])
          · exact Or.inr (by simp [h])
        | false =>
          rcases ih _ _ _ _ _ x hx with h | h
          · exact Or.inl h
          · exact Or.inr (by simp [h])
      | exc m =>
        rw [hcl] at hx
        rcases ih _ _ _ _ _ x hx with h | h
        · exact Or.inl h
        · exact Or.inr (by simp [h])

/-- Under an always-successful environment every produced result record is a
success. -/
theorem go_results_success (call : Nat → CallOutcome)
    (hcall : ∀ i, ∃ sc err, call i = .res true sc err) :
    ∀ (rest : List String) (idx : Nat) (sent sends appends : List String)
      (results : List RunRecord),
      (∀ rec ∈ results, rec.success = true) →
      ∀ rec ∈ (send_emails_go call rest idx sent sends appends results).results,
        rec.success = true := by
  intro rest
  induction rest with
  | nil =>
    intro idx sent sends appends results hres rec hrec
    simp only [send_emails_go] at hrec
    exact hres rec hrec
  | cons r rest2 ih =>
    intro idx sent sends appends results hres rec hrec
    rw [send_emails_go] at hrec
    by_cases hr : r ∈ sent
    · simp only [hr, if_true] at hrec
      exact ih _ _ _ _ _ hres rec hrec
    · simp only [hr, if_false] at hrec
      obtain ⟨sc, err, hcallidx⟩ := hcall idx
      rw [hcallidx] at hrec
      refine ih _ _ _ _ _ ?_ rec hrec
      intro rec2 hrec2
      rcases List.mem_append.1 hrec2 with h | h
      · exact hres rec2 h
      · simp at h
        rw [h]

/-- C1 amended: (a) any recipient already in the ledger set loaded at
startup is skipped — never passed to send_email and never re-appended; (b)
provided every recipient is a nonempty, strip-invariant, newline-free
address (as the sanitization pipeline produces) and the initial ledger file
is empty or newline-terminated, a fully successful run makes a rerun with
the persisted ledger perform zero sends, zero appends and produce zero
results. -/
theorem c1_amended_ledger_idempotence (call call2 : Nat → CallOutcome)
    (recipients : List String) (file0 : String) (start : Nat) :
    (∀ r, r ∈ loadProgress file0 →
      r ∉ (send_emails_one_by_one call recipients start file0).sends ∧
      r ∉ (send_emails_one_by_one call recipients start file0).appends) ∧
    ((∀ i, ∃ sc err, call i = .res true sc err) →
     (∀ r ∈ recipients, r ≠ "" ∧ stripL r.data = r.data ∧ '\n' ∉ r.data) →
     (file0.data = [] ∨ file0.data.getLast? = some '\n') →
     (∀ rec ∈ (send_emails_one_by_one call recipients 0 file0).results,
        rec.success = true) ∧
     send_emails_one_by_one call2 recipients 0
        (ledgerAfter file0 (send_emails_one_by_one call recipients 0 file0))
       = ⟨[], [], [],
          loadProgress (ledgerAfter file0 (send_emails_one_by_one call recipients 0 file0))⟩) := by
  constructor
  · intro r hr
    exact go_skip call (recipients.drop start) 0 (loadProgress file0) [] [] [] r hr
      (by simp) (by simp)
  · intro hcall hclean hwf
    constructor
    · exact go_results_success call hcall (recipients.drop 0) 0 (loadProgress file0)
        [] [] [] (by simp)
    · have happclean : ∀ r ∈ (send_emails_one_by_one call recipients 0 file0).appends,
          r ≠ "" ∧ stripL r.data = r.data ∧ '\n' ∉ r.data := by
        intro r hr
        rcases go_appends_from call (recipients.drop 0) 0 (loadProgress file0) [] [] []
            r hr with h | h
        · simp at h
        · exact hclean r (by simpa using h)
      have hloaded : loadProgress (ledgerAfter file0 (send_emails_one_by_one call recipients 0 file0))
          = loadProgress file0 ++ (send_emails_one_by_one call recipients 0 file0).appends := by
        show loadLinesL (file0.data
            ++ (((send_emails_one_by_one call recipients 0 file0).appends.map
                  (fun r => r.data ++ ['\n'])).flatten)) = _
        rw [loadLinesL_append_wf _ file0.data.length file0.data le_rfl hwf]
        rw [loadLinesL_writes _ happclean]
        rfl
      have hcover : ∀ r ∈ recipients,
          r ∈ loadProgress (ledgerAfter file0 (send_emails_one_by_one call recipients 0 file0)) := by
        intro r hr
        have h1 : r ∈ (send_emails_one_by_one call recipients 0 file0).sent :=
          go_success_covers call hcall (recipients.drop 0) 0 (loadProgress file0)
            [] [] [] r (by simpa using hr)
        rcases go_sent_sub call (recipients.drop 0) 0 (loadProgress file0) [] [] []
            r h1 with h | h
        · rw [hloaded]
          exact List.mem_append.2 (Or.inl h)
        · rw [hloaded]
          exact List.mem_append.2 (Or.inr h)
      show send_emails_go call2 (recipients.drop 0) 0
          (loadProgress (ledgerAfter file0 (send_emails_one_by_one call recipients 0 file0)))
          [] [] [] = _
      rw [go_all_sent call2 (recipients.drop 0) 0 _ [] [] []
        (fun x hx => hcover x (by simpa using hx))]

/-- C1 counterexample to the claim as stated: with the whitespace-padded
recipient " a@b.com " and an empty initial ledger, the first run is fully
successful and appends the recipient verbatim, but loading strips the line,
so the identical second run sends it again — one additional send, not
zero. -/
theorem c1_counterexample :
    ((send_emails_one_by_one (fun _ => .res true (some 202) none) [" a@b.com "] 0 "").results.all
        (fun rec => rec.success)) = true ∧
    (send_emails_one_by_one (fun _ => .res true (some 202) none) [" a@b.com "] 0
        (ledgerAfter "" (send_emails_one_by_one (fun _ => .res true (some 202) none)
          [" a@b.com "] 0 ""))).sends = [" a@b.com "] := by
  constructor
  · rfl
  · rfl

/-- Witness for C1 amended at concrete inputs: a ledger-listed recipient is
skipped, and with a clean recipient list a fully successful run followed by
a rerun on the persisted ledger performs zero sends. -/
theorem c1_amended_ledger_idempotence_witness :
    ("x@y.zw" ∉ (send_emails_one_by_one (fun _ => .res true (some 202) none)
        ["x@y.zw", "a@b.cd"] 0 "x@y.zw\n").sends) ∧
    send_emails_one_by_one (fun _ => .res true (some 202) none) ["a@b.cd"] 0
        (ledgerAfter "" (send_emails_one_by_one (fun _ => .res true (some 202) none)
          ["a@b.cd"] 0 ""))
      = ⟨[], [], [], ["a@b.cd"]⟩ := by
  constructor
  · exact ((c1_amended_ledger_idempotence (fun _ => .res true (some 202) none)
      (fun _ => .res true (some 202) none) ["x@y.zw", "a@b.cd"] "x@y.zw\n" 0).1
      "x@y.zw" (by decide)).1
  · have h := ((c1_amended_ledger_idempotence (fun _ => .res true (some 202) none)
      (fun _ => .res true (some 202) none) ["a@b.cd"] "" 0).2
      (fun i => ⟨some 202, none, rfl⟩) (by decide) (Or.inl rfl)).2
    rw [h]
    rfl
